import Mathlib

/-!
Verification of the OS interaction layer in
`src/libs/steed/src/sys/theseus/os.rs` (Theseus port of the steed runtime).

Byte sequences (Rust `&[u8]`, `OsStr`, `Vec<u8>`, `PathBuf`) are embedded as
`List Nat`.  The raw kernel-call layer (`libc::getcwd`, `libc::chdir`,
`libc::getenv`, `libc::setenv`, `libc::unsetenv`) together with the shared
`cvt` result-conversion utility is external to the file under verification;
it is embedded as an oracle parameter (for `getcwd`/`chdir`) or as an
explicit environment-table state (for the env operations), whose error
payload is the raw OS error code that `io::Error::raw_os_error` would report.
-/

namespace TheseusOs

/-- The ASCII `:` separator byte used by the path-list codec. -/
def sepByte : Nat := 58

/-- The zero terminator byte of the underlying C-string call convention. -/
def nulByte : Nat := 0

/-- The `ERANGE` (insufficient buffer size) raw OS error code checked by
`getcwd` via `e.raw_os_error() == Some(libc::ERANGE)`. -/
def ERANGE : Int := 34

/-- An `io::Error` as this layer produces it: either the `NulError` coming
from a failed `CString::new` (an embedded terminator byte), or an OS error
carrying the raw kernel code. -/
inductive IoErr where
  | nulError : IoErr
  | osError : Int → IoErr
deriving DecidableEq, Repr

/-- `CString::new(b)`: fails with a nul error when the byte sequence holds an
embedded terminator byte, otherwise yields the same bytes. -/
def cstring_new (b : List Nat) : Except IoErr (List Nat) :=
  if b.contains nulByte then .error .nulError else .ok b

/-! ## PathListCodec: `split_paths` (os.rs lines 81-97) -/

/-- `split_paths`: splits the unparsed byte sequence on every `:` byte,
exactly as Rust `slice::split` does — subsequences between separator
occurrences, with empty segments for leading, trailing or consecutive
separators, and a single empty segment for empty input. -/
def split_paths : List Nat → List (List Nat)
  | [] => [[]]
  | b :: rest =>
    if b = sepByte then [] :: split_paths rest
    else (split_paths rest).modifyHead (fun s => b :: s)

/-! ## PathListCodec: `join_paths` (os.rs lines 99-127) -/

/-- `JoinPathsError`: the error value of `join_paths`; it carries no data at
all (in particular no partial output bytes). -/
structure JoinPathsError : Type where

instance : DecidableEq JoinPathsError := fun _ _ => .isTrue rfl

/-- The `fmt::Display` implementation for `JoinPathsError` (os.rs lines
119-123): a fixed message, independent of the error value. -/
def join_paths_error_display (_ : JoinPathsError) : String :=
  "path segment contains separator `:`"

/-- The body of the `for (i, path) in paths.enumerate()` loop of
`join_paths`: `i` is the enumeration index and `joined` the accumulated
output vector; a separator is pushed before every element except the first,
and the whole accumulated output is discarded when a segment holds the
separator byte. -/
def join_go : List (List Nat) → Nat → List Nat → Except JoinPathsError (List Nat)
  | [], _, joined => .ok joined
  | path :: rest, i, joined =>
    let joined2 := if i > 0 then joined ++ [sepByte] else joined
    if path.contains sepByte then .error ⟨⟩
    else join_go rest (i + 1) (joined2 ++ path)

/-- `join_paths`: starts from an empty output vector and index 0. -/
def join_paths (paths : List (List Nat)) : Except JoinPathsError (List Nat) :=
  join_go paths 0 []

/-- Specification-side shape of a successful join: the segments concatenated
with exactly one separator between consecutive elements, none before the
first and none after the last. -/
def joined_spec : List (List Nat) → List Nat
  | [] => []
  | [p] => p
  | p :: rest => p ++ sepByte :: joined_spec rest

/-- Helper: the bytes contributed by every element after the first — each
one preceded by exactly one separator byte. -/
def seps_spec : List (List Nat) → List Nat
  | [] => []
  | p :: rest => sepByte :: (p ++ seps_spec rest)

theorem joined_spec_cons (p : List Nat) (ps : List (List Nat)) :
    joined_spec (p :: ps) = p ++ seps_spec ps := by
  induction ps generalizing p with
  | nil => simp [joined_spec, seps_spec]
  | cons q qs ih => simp [joined_spec, seps_spec, ih q]

theorem join_go_ok (ps : List (List Nat))
    (h : ∀ p ∈ ps, p.contains sepByte = false) :
    ∀ i joined, 0 < i → join_go ps i joined = .ok (joined ++ seps_spec ps) := by
  induction ps with
  | nil => intro i joined _; simp [join_go, seps_spec]
  | cons p rest ih =>
    intro i joined hi
    have hp : p.contains sepByte = false := h p (by simp)
    have hrest : ∀ q ∈ rest, q.contains sepByte = false := by
      intro q hq; exact h q (by simp [hq])
    simp only [join_go, hp, Nat.lt_irrefl, if_pos hi, Bool.false_eq_true, if_false]
    rw [ih hrest (i + 1) _ (Nat.succ_pos i)]
    simp [seps_spec]

theorem join_paths_ok (ps : List (List Nat))
    (h : ∀ p ∈ ps, p.contains sepByte = false) :
    join_paths ps = .ok (joined_spec ps) := by
  cases ps with
  | nil => rfl
  | cons p rest =>
    have hp : p.contains sepByte = false := h p (by simp)
    have hrest : ∀ q ∈ rest, q.contains sepByte = false := by
      intro q hq; exact h q (by simp [hq])
    simp only [join_paths, join_go, Nat.lt_irrefl, if_false, hp,
      Bool.false_eq_true, joined_spec_cons]
    rw [join_go_ok rest hrest 1 _ Nat.one_pos]
    simp

theorem join_go_error_iff (ps : List (List Nat)) :
    ∀ i joined, join_go ps i joined = .error ⟨⟩ ↔
      ps.any (fun p => p.contains sepByte) = true := by
  induction ps with
  | nil => intro i joined; simp [join_go]
  | cons p rest ih =>
    intro i joined
    simp only [join_go, List.any_cons]
    by_cases hp : p.contains sepByte = true
    · rw [if_pos hp, hp]
      simp
    · simp only [Bool.not_eq_true] at hp
      simp only [hp, Bool.false_eq_true, if_false, Bool.false_or]
      exact ih (i + 1) _

theorem split_paths_ne_nil (l : List Nat) : split_paths l ≠ [] := by
  cases l with
  | nil => simp [split_paths]
  | cons b rest =>
    simp only [split_paths]
    by_cases hb : b = sepByte
    · simp [hb]
    · rw [if_neg hb]
      cases h : split_paths rest with
      | nil => exact absurd h (split_paths_ne_nil rest)
      | cons s ss => simp [List.modifyHead]

theorem joined_spec_split (l : List Nat) : joined_spec (split_paths l) = l := by
  induction l with
  | nil => rfl
  | cons b rest ih =>
    simp only [split_paths]
    cases h : split_paths rest with
    | nil => exact absurd h (split_paths_ne_nil rest)
    | cons s ss =>
      rw [h] at ih
      by_cases hb : b = sepByte
      · rw [if_pos hb, hb]
        cases ss with
        | nil =>
          simp only [joined_spec] at ih ⊢
          simp [ih]
        | cons t ts =>
          simp only [joined_spec] at ih ⊢
          simp [ih]
      · rw [if_neg hb]
        cases ss with
        | nil =>
          simp only [joined_spec, List.modifyHead] at ih ⊢
          simp [ih]
        | cons t ts =>
          simp only [joined_spec, List.modifyHead] at ih ⊢
          simp [ih]

theorem split_paths_sep_free (l : List Nat) :
    (split_paths l).all (fun p => !(p.contains sepByte)) = true := by
  induction l with
  | nil => rfl
  | cons b rest ih =>
    simp only [split_paths]
    cases h : split_paths rest with
    | nil => exact absurd h (split_paths_ne_nil rest)
    | cons s ss =>
      rw [h] at ih
      by_cases hb : b = sepByte
      · rw [if_pos hb]
        simpa using ih
      · rw [if_neg hb]
        simp only [List.modifyHead, List.all_cons, Bool.and_eq_true] at ih ⊢
        refine ⟨?_, ih.2⟩
        simp only [Bool.not_eq_true'] at ih ⊢
        rw [List.contains_cons, ih.1, Bool.or_false, beq_eq_false_iff_ne]
        exact Ne.symm hb

theorem split_paths_nosep (a : List Nat) (h : a.contains sepByte = false) :
    split_paths a = [a] := by
  induction a with
  | nil => rfl
  | cons b rest ih =>
    simp only [List.contains_cons, Bool.or_eq_false_iff] at h
    have hb : b ≠ sepByte := by
      intro hb
      subst hb
      simp at h
    simp only [split_paths, if_neg hb, ih h.2, List.modifyHead]

theorem split_paths_append (a t : List Nat) (h : a.contains sepByte = false) :
    split_paths (a ++ sepByte :: t) = a :: split_paths t := by
  induction a with
  | nil => simp [split_paths]
  | cons b rest ih =>
    simp only [List.contains_cons, Bool.or_eq_false_iff] at h
    have hb : b ≠ sepByte := by
      intro hb
      subst hb
      simp at h
    show split_paths (b :: (rest ++ sepByte :: t)) = (b :: rest) :: split_paths t
    simp only [split_paths, if_neg hb]
    rw [ih h.2]
    simp [List.modifyHead]

/-! ## WorkingDirectory: `getcwd` (os.rs lines 38-61) and `chdir` (68-74) -/

/-- One iteration state of the `getcwd` retry loop.  The kernel call plus the
shared `cvt` utility is the oracle `kern attempt cap`: on success it yields
the bytes the kernel wrote into the buffer (nul-terminated content), on
failure the raw OS error code.  `attempt` counts the kernel invocations
already made, `cap` is the current buffer capacity, and `fuel` bounds the
unrolling of the source's unbounded `loop`.  On success the length is found
by scanning for the first terminator byte (`CStr::from_ptr ... to_bytes`)
and the buffer truncated there; on an `ERANGE` failure the buffer is grown
(`set_len(cap); reserve(1)`, embodied by the `grow` parameter) and the loop
retries; any other failure is returned at once.  The returned pair is
(number of kernel invocations, final result). -/
def getcwd_loop (kern : Nat → Nat → Except Int (List Nat)) (grow : Nat → Nat) :
    Nat → Nat → Nat → Option (Nat × Except Int (List Nat))
  | 0, _, _ => none
  | fuel + 1, attempt, cap =>
    match kern attempt cap with
    | .ok buf => some (attempt + 1, .ok (buf.takeWhile (fun b => b != nulByte)))
    | .error e =>
      if e = ERANGE then getcwd_loop kern grow fuel (attempt + 1) (grow cap)
      else some (attempt + 1, .error e)

/-- `getcwd`: starts the loop with a fresh buffer of capacity 512 and no
kernel invocation made yet. -/
def getcwd (kern : Nat → Nat → Except Int (List Nat)) (grow : Nat → Nat)
    (fuel : Nat) : Option (Nat × Except Int (List Nat)) :=
  getcwd_loop kern grow fuel 0 512

/-- `chdir`: converts the path to a nul-terminated form via `CString::new`
(failing on an embedded terminator byte before any kernel call), then makes
exactly one kernel call; the oracle error payload is the raw OS code.  The
first component counts kernel invocations. -/
def chdir (kern : List Nat → Except Int Unit) (p : List Nat) :
    Nat × Except IoErr Unit :=
  match cstring_new p with
  | .error e => (0, .error e)
  | .ok pc =>
    (1, match kern pc with
        | .ok _ => .ok ()
        | .error c => .error (.osError c))

/-! ## EnvironmentTable (os.rs lines 168-196) -/

/-- Modelled from the spec: the raw kernel environment table consumed by
this layer (spec section 6, `getenv(key) -> optional bytes`,
`setenv(key, value) -> int`, `unsetenv(key) -> int`); its implementation
(`libc::getenv` and friends) lives outside the file under verification.
The table is a finite association list from key bytes to value bytes. -/
abbrev EnvTable := List (List Nat × List Nat)

/-- Modelled from the spec: raw kernel lookup of one variable, yielding the
value bytes when the key is present. -/
def kern_getenv (st : EnvTable) (k : List Nat) : Option (List Nat) :=
  (st.find? (fun kv => kv.1 == k)).map (fun kv => kv.2)

/-- Modelled from the spec: raw kernel set of one variable; keys are unique
in the live table, so any previous binding of the key is replaced. -/
def kern_setenv (st : EnvTable) (k v : List Nat) : EnvTable :=
  (k, v) :: st.filter (fun kv => kv.1 != k)

/-- Modelled from the spec: raw kernel removal of one variable. -/
def kern_unsetenv (st : EnvTable) (k : List Nat) : EnvTable :=
  st.filter (fun kv => kv.1 != k)

/-- `getenv` (os.rs lines 168-178): converts the key with `CString::new`
(propagating the nul error before any kernel call), then performs exactly
one raw lookup and wraps the optional value in `Ok` — there is no OS-error
path after the encoding step.  First component counts kernel invocations. -/
def getenv (st : EnvTable) (k : List Nat) :
    Nat × Except IoErr (Option (List Nat)) :=
  match cstring_new k with
  | .error e => (0, .error e)
  | .ok kc => (1, .ok (kern_getenv st kc))

/-- `setenv` (os.rs lines 180-187): performs the raw kernel set directly on
the key and value byte slices — no `CString::new` conversion and hence no
embedded-terminator check; the successful kernel result is mapped to `Ok ()`.
Components: kernel invocation count, table after the call, result. -/
def setenv (st : EnvTable) (k v : List Nat) :
    Nat × EnvTable × Except IoErr Unit :=
  (1, kern_setenv st k v, .ok ())

/-- `unsetenv` (os.rs lines 189-196): performs the raw kernel removal
directly on the key byte slice — again no embedded-terminator check.
Components: kernel invocation count, table after the call, result. -/
def unsetenv (st : EnvTable) (k : List Nat) :
    Nat × EnvTable × Except IoErr Unit :=
  (1, kern_unsetenv st k, .ok ())

/-! ## `page_size` (os.rs lines 63-66) -/

/-- Outcome of a Rust function that may abort instead of returning. -/
inductive PanicOutcome (α : Type) where
  | panicked : String → PanicOutcome α
  | value : α → PanicOutcome α
deriving DecidableEq, Repr

/-- `page_size`: the body is a bare `unimplemented!()`, an unconditional
abort with the fixed message, reached on every invocation. -/
def page_size : PanicOutcome Nat :=
  .panicked "not implemented"

/-! ## Supporting lemmas for the getcwd retry loop and the env table -/

theorem getcwd_loop_run (kern : Nat → Nat → Except Int (List Nat))
    (grow : Nat → Nat) (buf : List Nat) :
    ∀ N a cap fuel : Nat,
      (∀ i c, i < N → kern (a + i) c = .error ERANGE) →
      (∀ c, kern (a + N) c = .ok buf) →
      N < fuel →
      getcwd_loop kern grow fuel a cap =
        some (a + N + 1, .ok (buf.takeWhile (fun b => b != nulByte))) := by
  intro N
  induction N with
  | zero =>
    intro a cap fuel _ hok hfuel
    cases fuel with
    | zero => omega
    | succ f =>
      have hok2 : kern a cap = Except.ok buf := by simpa using hok cap
      simp [getcwd_loop, hok2]
  | succ N ih =>
    intro a cap fuel hfail hok hfuel
    cases fuel with
    | zero => omega
    | succ f =>
      have h0 : kern a cap = .error ERANGE := by
        have := hfail 0 cap (Nat.succ_pos N)
        simpa using this
      have hstep := ih (a + 1) (grow cap) f
        (fun i c hi => by
          have := hfail (i + 1) c (Nat.succ_lt_succ hi)
          have harr : a + (i + 1) = a + 1 + i := by omega
          rwa [harr] at this)
        (fun c => by
          have := hok c
          have harr : a + (N + 1) = a + 1 + N := by omega
          rwa [harr] at this)
        (by omega)
      have harith : a + 1 + N + 1 = a + (N + 1) + 1 := by omega
      rw [harith] at hstep
      simp [getcwd_loop, h0, ERANGE, hstep]

theorem takeWhile_ne_not_contains (l : List Nat) (x : Nat) :
    (l.takeWhile (fun b => b != x)).contains x = false := by
  induction l with
  | nil => rfl
  | cons b rest ih =>
    by_cases hb : b = x
    · subst hb
      simp [List.takeWhile]
    · have hbne : (b != x) = true := bne_iff_ne.mpr hb
      simp only [List.takeWhile, hbne]
      rw [List.contains_cons, ih, Bool.or_false, beq_eq_false_iff_ne]
      exact Ne.symm hb

theorem getcwd_loop_ok_no_nul (kern : Nat → Nat → Except Int (List Nat))
    (grow : Nat → Nat) :
    ∀ fuel a cap n p, getcwd_loop kern grow fuel a cap = some (n, .ok p) →
      p.contains nulByte = false := by
  intro fuel
  induction fuel with
  | zero =>
    intro a cap n p h
    simp [getcwd_loop] at h
  | succ f ih =>
    intro a cap n p h
    simp only [getcwd_loop] at h
    split at h
    · simp only [Option.some_inj, Prod.mk.injEq, Except.ok.injEq] at h
      rw [← h.2]
      apply takeWhile_ne_not_contains
    · split at h
      · exact ih _ _ _ _ h
      · simp at h

theorem kern_getenv_setenv (st : EnvTable) (k v : List Nat) :
    kern_getenv (kern_setenv st k v) k = some v := by
  simp [kern_getenv, kern_setenv, List.find?]

theorem kern_getenv_unsetenv (st : EnvTable) (k : List Nat) :
    kern_getenv (kern_unsetenv st k) k = none := by
  have hfind : (kern_unsetenv st k).find? (fun kv => kv.1 == k) = none := by
    rw [kern_unsetenv, List.find?_eq_none]
    intro kv hkv
    rw [List.mem_filter] at hkv
    have hne := bne_iff_ne.mp hkv.2
    simp only [beq_iff_eq]
    exact hne
  simp [kern_getenv, hfind]

/-! ## Claim theorems -/

/-- Claim C1: for every run of `getcwd` in which the kernel call reports the
insufficient-buffer condition (`ERANGE`) for N consecutive attempts and then
succeeds, exactly N + 1 kernel-call invocations occur and the returned
result is the buffer truncated at the first terminator byte, for every N. -/
theorem getcwd_n_erange_then_success
    (kern : Nat → Nat → Except Int (List Nat)) (grow : Nat → Nat)
    (buf : List Nat) (N fuel : Nat)
    (hfail : ∀ i c, i < N → kern i c = .error ERANGE)
    (hok : ∀ c, kern N c = .ok buf)
    (hfuel : N < fuel) :
    getcwd kern grow fuel =
      some (N + 1, .ok (buf.takeWhile (fun b => b != nulByte))) := by
  have h := getcwd_loop_run kern grow buf N 0 512 fuel
    (fun i c hi => by simpa using hfail i c hi)
    (fun c => by simpa using hok c) hfuel
  simpa [getcwd] using h

/-- Witness for C1: one simulated insufficient-buffer response followed by a
success yields exactly two kernel invocations and the truncated buffer. -/
theorem getcwd_n_erange_then_success_witness :
    getcwd (fun i _ => if i = 0 then Except.error 34 else Except.ok [97, 0, 98])
      (fun c => c + 1) 2 = some (2, Except.ok [97]) := by
  have h := getcwd_n_erange_then_success
    (fun i _ => if i = 0 then Except.error 34 else Except.ok [97, 0, 98])
    (fun c => c + 1) [97, 0, 98] 1 2
    (fun i c hi => by
      have hi0 : i = 0 := by omega
      subst hi0
      rfl)
    (fun c => rfl) (by omega)
  simpa using h

/-- Counterexample for C2: `setenv` on a key holding an embedded terminator
byte performs one kernel call and returns success, not an encoding error —
it passes the raw key and value byte slices to the kernel with no
`CString::new` conversion, so the claim is false for `setenv` (and likewise
`unsetenv`). -/
theorem setenv_nul_key_no_encoding_error :
    (setenv [] [nulByte] [97]).1 = 1 ∧
      (setenv [] [nulByte] [97]).2.2 = Except.ok () :=
  ⟨rfl, rfl⟩

/-- Claim C2 amended: on input holding an embedded terminator byte, `chdir`
and `getenv` yield the encoding error before any kernel call; `setenv` and
`unsetenv` perform no terminator check at all and always make exactly one
kernel call on the raw bytes. -/
theorem nul_byte_encoding_check (kern : List Nat → Except Int Unit)
    (st : EnvTable) (p k v : List Nat)
    (hp : p.contains nulByte = true) (hk : k.contains nulByte = true) :
    chdir kern p = (0, .error .nulError) ∧
    getenv st k = (0, .error .nulError) ∧
    (setenv st k v).1 = 1 ∧ (setenv st k v).2.2 = .ok () ∧
    (unsetenv st k).1 = 1 ∧ (unsetenv st k).2.2 = .ok () := by
  have hp2 : nulByte ∈ p := by simpa using hp
  have hk2 : nulByte ∈ k := by simpa using hk
  refine ⟨?_, ?_, rfl, rfl, rfl, rfl⟩
  · simp [chdir, cstring_new, hp2]
  · simp [getenv, cstring_new, hk2]

/-- Witness for the amended C2 at the nul-containing key and path `[0]`. -/
theorem nul_byte_encoding_check_witness :
    chdir (fun _ => Except.ok ()) [0] = (0, Except.error IoErr.nulError) ∧
    getenv [] [0] = (0, Except.error IoErr.nulError) ∧
    (setenv [] [0] [97]).1 = 1 ∧ (setenv [] [0] [97]).2.2 = Except.ok () ∧
    (unsetenv [] [0]).1 = 1 ∧ (unsetenv [] [0]).2.2 = Except.ok () :=
  nul_byte_encoding_check (fun _ => Except.ok ()) [] [0] [0] [97] rfl rfl

/-- Claim C3: `join_paths` fails if and only if some input segment holds the
separator byte, regardless of position (the error value carries no partial
output — `JoinPathsError` has no data fields at all), and the error displays
the fixed message. -/
theorem join_paths_error_characterisation (ps : List (List Nat)) :
    ((∃ e : JoinPathsError, join_paths ps = .error e) ↔
      ps.any (fun p => p.contains sepByte) = true) ∧
    (∀ e : JoinPathsError,
      join_paths_error_display e = "path segment contains separator `:`") := by
  constructor
  · constructor
    · rintro ⟨e, he⟩
      have he2 : join_paths ps = .error ⟨⟩ := by
        cases e
        exact he
      exact (join_go_error_iff ps 0 []).mp he2
    · intro h
      exact ⟨⟨⟩, (join_go_error_iff ps 0 []).mpr h⟩
  · intro e
    rfl

/-- Witness for C3: a singleton list whose only segment is the separator
byte makes `join_paths` fail. -/
theorem join_paths_error_characterisation_witness :
    ∃ e : JoinPathsError, join_paths [[sepByte]] = Except.error e :=
  ((join_paths_error_characterisation [[sepByte]]).1).mpr (by decide)

/-- Claim C4: on segments free of the separator byte, `join_paths` succeeds
with the segments concatenated and exactly one separator between consecutive
elements (none leading, none trailing); the empty sequence joins to the
empty byte sequence and a single segment joins to itself unchanged. -/
theorem join_paths_success_shape (ps : List (List Nat)) (p : List Nat)
    (hps : ps.all (fun q => !(q.contains sepByte)) = true)
    (hp : p.contains sepByte = false) :
    join_paths ps = .ok (joined_spec ps) ∧
    join_paths [] = .ok ([] : List Nat) ∧
    join_paths [p] = .ok p := by
  refine ⟨?_, rfl, ?_⟩
  · apply join_paths_ok
    intro q hq
    have hq2 := List.all_eq_true.mp hps q hq
    simpa using hq2
  · have h := join_paths_ok [p] ?_
    · simpa [joined_spec] using h
    · intro q hq
      simp only [List.mem_singleton] at hq
      subst hq
      exact hp

/-- Witness for C4 on two concrete segments and a concrete singleton. -/
theorem join_paths_success_shape_witness :
    join_paths [[97], [98]] = Except.ok [97, sepByte, 98] ∧
    join_paths [] = Except.ok ([] : List Nat) ∧
    join_paths [[99]] = Except.ok [99] := by
  have h := join_paths_success_shape [[97], [98]] [99] (by decide) (by decide)
  simpa [joined_spec] using h

/-- Claim C5: `split_paths` is total (it is a plain function, hence never
fails) and yields exactly the subsequences between separator bytes in
order: re-interleaving its segments with single separators reproduces the
input, every produced segment is separator-free, and consecutive separators
yield empty segments with no special-casing (split of "a::b" is
["a", "", "b"]). -/
theorem split_paths_spec (l : List Nat) :
    joined_spec (split_paths l) = l ∧
    (split_paths l).all (fun p => !(p.contains sepByte)) = true ∧
    split_paths [97, sepByte, sepByte, 98] = [[97], [], [98]] :=
  ⟨joined_spec_split l, split_paths_sep_free l, by decide⟩

/-- Claim C6: for segments free of separator and terminator bytes, split
after join recovers the original segments, and joining again reproduces the
same byte sequence (the full round-trip of the claim). -/
theorem split_join_roundtrip (a b c : List Nat)
    (ha : a.contains sepByte = false) (hb : b.contains sepByte = false)
    (hc : c.contains sepByte = false)
    (ha0 : a.contains nulByte = false) (hb0 : b.contains nulByte = false)
    (hc0 : c.contains nulByte = false) :
    join_paths [a, b, c] = .ok (joined_spec [a, b, c]) ∧
    split_paths (joined_spec [a, b, c]) = [a, b, c] ∧
    join_paths (split_paths (joined_spec [a, b, c])) =
      .ok (joined_spec [a, b, c]) := by
  have hall : ∀ q ∈ [a, b, c], q.contains sepByte = false := by
    intro q hq
    simp only [List.mem_cons, List.mem_singleton] at hq
    rcases hq with h | h | h
    · rw [h]; exact ha
    · rw [h]; exact hb
    · rcases h with h | h
      · rw [h]; exact hc
      · cases h
  have hjoin := join_paths_ok [a, b, c] hall
  have hshape : joined_spec [a, b, c] = a ++ sepByte :: (b ++ sepByte :: c) := by
    simp [joined_spec]
  have hsplit : split_paths (joined_spec [a, b, c]) = [a, b, c] := by
    rw [hshape, split_paths_append a _ ha, split_paths_append b _ hb,
      split_paths_nosep c hc]
  exact ⟨hjoin, hsplit, by rw [hsplit]; exact hjoin⟩

/-- Witness for C6 on three concrete separator-free, terminator-free
segments. -/
theorem split_join_roundtrip_witness :
    join_paths (split_paths (joined_spec [[97], [98], [99]])) =
      Except.ok (joined_spec [[97], [98], [99]]) :=
  (split_join_roundtrip [97] [98] [99] (by decide) (by decide) (by decide)
    (by decide) (by decide) (by decide)).2.2

/-- Claim C7: in `getcwd`, a retry is taken only on the single
insufficient-buffer error kind and uses a strictly larger capacity than the
previous attempt; every other kernel failure is returned immediately and
unmodified after that one invocation; and a returned path never includes
the terminator byte.  The hypothesis on `grow` is the `Vec::reserve(1)`
guarantee (capacity strictly increases) after `set_len(cap)`. -/
theorem getcwd_retry_policy (kern : Nat → Nat → Except Int (List Nat))
    (grow : Nat → Nat) (hgrow : ∀ c, c < grow c) :
    (∀ fuel a cap, kern a cap = .error ERANGE →
        getcwd_loop kern grow (fuel + 1) a cap =
          getcwd_loop kern grow fuel (a + 1) (grow cap) ∧ cap < grow cap) ∧
    (∀ fuel a cap e, kern a cap = .error e → e ≠ ERANGE →
        getcwd_loop kern grow (fuel + 1) a cap = some (a + 1, .error e)) ∧
    (∀ fuel n p, getcwd kern grow fuel = some (n, .ok p) →
        p.contains nulByte = false) := by
  refine ⟨?_, ?_, ?_⟩
  · intro fuel a cap hk
    refine ⟨?_, hgrow cap⟩
    simp [getcwd_loop, hk, ERANGE]
  · intro fuel a cap e hk hne
    simp [getcwd_loop, hk, hne]
  · intro fuel n p h
    exact getcwd_loop_ok_no_nul kern grow fuel 0 512 n p h

/-- Witness for C7: a non-ERANGE failure (raw code 5) on the first attempt
is returned immediately after exactly one kernel invocation. -/
theorem getcwd_retry_policy_witness :
    getcwd_loop (fun _ _ => Except.error 5) (fun c => c + 1) 1 0 512 =
      some (1, Except.error 5) :=
  (getcwd_retry_policy (fun _ _ => Except.error 5) (fun c => c + 1)
    (fun c => Nat.lt_succ_self c)).2.1 0 0 512 5 rfl (by decide)

/-- Claim C8: for a key and value free of embedded terminator bytes,
`setenv` then `getenv` with no intervening mutation returns `Some v`, and
`unsetenv` then `getenv` returns `None`. -/
theorem env_set_get_unset (st : EnvTable) (k v : List Nat)
    (hk : k.contains nulByte = false) (hv : v.contains nulByte = false) :
    getenv (setenv st k v).2.1 k = (1, .ok (some v)) ∧
    getenv (unsetenv st k).2.1 k = (1, .ok none) := by
  have hk2 : nulByte ∉ k := by simpa using hk
  constructor
  · simp [getenv, cstring_new, hk2, setenv, kern_getenv_setenv]
  · simp [getenv, cstring_new, hk2, unsetenv, kern_getenv_unsetenv]

/-- Witness for C8 on a concrete key and value. -/
theorem env_set_get_unset_witness :
    getenv (setenv [] [107] [118]).2.1 [107] = (1, Except.ok (some [118])) ∧
    getenv (unsetenv [] [107]).2.1 [107] = (1, Except.ok none) :=
  env_set_get_unset [] [107] [118] (by decide) (by decide)

/-- Claim C9: `page_size` unconditionally aborts via `unimplemented!()` and
never returns a value: the embedding is exactly the panicked outcome, which
by constructor disjointness of `PanicOutcome` is never `value n`. -/
theorem page_size_unconditionally_panics :
    page_size = PanicOutcome.panicked "not implemented" :=
  rfl

/-- Claim C10: for a key free of embedded terminator bytes, `getenv` never
returns an OS error — it makes one kernel lookup and wraps the optional
value in `Ok`, reporting an absent variable as `Ok none`; its only failure
mode is the encoding error on a terminator-containing key. -/
theorem getenv_no_os_error (st : EnvTable) (k : List Nat) :
    (k.contains nulByte = false →
      getenv st k = (1, .ok (kern_getenv st k))) ∧
    (k.contains nulByte = false → kern_getenv st k = none →
      getenv st k = (1, .ok none)) ∧
    (k.contains nulByte = true →
      getenv st k = (0, .error .nulError)) := by
  refine ⟨?_, ?_, ?_⟩
  · intro hk
    have hk2 : nulByte ∉ k := by simpa using hk
    simp [getenv, cstring_new, hk2]
  · intro hk hnone
    have hk2 : nulByte ∉ k := by simpa using hk
    simp [getenv, cstring_new, hk2, hnone]
  · intro hk
    have hk2 : nulByte ∈ k := by simpa using hk
    simp [getenv, cstring_new, hk2]

/-- Witness for C10: an absent variable under an empty table is reported as
`Ok none` after one kernel lookup. -/
theorem getenv_no_os_error_witness :
    getenv [] [107] = (1, Except.ok none) :=
  (getenv_no_os_error [] [107]).2.1 (by decide) rfl

end TheseusOs
